import Mathlib

/-!
Verification of the fractary/codex caching layer (Python package
`fractary_codex`): `CacheEntry`, `CacheManager.fetch`, `FileCacheStore`,
and the `TypeRegistry` TTL lookup, shallowly embedded in Lean.

Modelling conventions:
* bytes are `List Nat`; timestamps are `Int` epoch seconds (one clock value
  per operation); the MD5 / SHA-256 digests are abstract function
  parameters, since no verified property depends on the concrete hash;
* Python dictionaries carrying loosely typed values are association lists
  over `MetaValue`; JSON `null` is `MetaValue.vNone`;
* the file store seen by the manager is a map `String → Option CacheEntry`
  (its get/put contract); the on-disk single-key layout and the whole-store
  scan each get their own finer model where a claim needs it.
-/

/-- Loosely typed values held in the provider metadata dictionaries. -/
inductive MetaValue where
  | vNone
  | vBool (b : Bool)
  | vInt (n : Int)
  | vStr (s : String)
deriving Repr, DecidableEq

/-- Python dict with string keys and loosely typed values, as an
association list (insertion-ordered, no duplicate keys in states the
code builds). -/
abbrev MetaDict := List (String × MetaValue)

/-- Python truthiness of a metadata value. -/
def MetaValue.truthy : MetaValue → Bool
  | .vNone => false
  | .vBool b => b
  | .vInt n => n != 0
  | .vStr s => s != ""

/-- Dictionary lookup, `d.get(k)` returning `none` when absent. -/
def dictGet (m : MetaDict) (k : String) : Option MetaValue :=
  (m.find? (fun p => p.1 = k)).map (fun p => p.2)

/-- Dictionary update `d[k] = v`: overwrite in place, else append. -/
def dictSet (m : MetaDict) (k : String) (v : MetaValue) : MetaDict :=
  if m.any (fun p => p.1 = k) then
    m.map (fun p => if p.1 = k then (k, v) else p)
  else
    m ++ [(k, v)]

/-!
Character-level string helpers. The Python string operations the cache
performs are re-implemented structurally over `List Char` (they involve
only single-character patterns, `/`-separated segments, or the `**`
marker), keeping every definition evaluable inside the kernel.
-/

/-- Prefix test, Python `s.startswith(p)`. -/
def startsWithChars : List Char → List Char → Bool
  | _, [] => true
  | [], _ :: _ => false
  | c :: cs, p :: ps => c = p && startsWithChars cs ps

/-- Python `s.split(sep)` for a one-character separator. -/
def splitChar (c : Char) : List Char → List (List Char)
  | [] => [[]]
  | x :: xs =>
    match splitChar c xs with
    | [] => [[]]
    | h :: t => if x = c then [] :: h :: t else (x :: h) :: t

/-- Python `sep.join(parts)`. -/
def joinSep (sep : List Char) : List (List Char) → List Char
  | [] => []
  | [p] => p
  | p :: q :: ps => p ++ sep ++ joinSep sep (q :: ps)

/-- Python `"**" in pattern`: two adjacent stars occur. -/
def hasDoubleStar : List Char → Bool
  | '*' :: '*' :: _ => true
  | _ :: rest => hasDoubleStar rest
  | [] => false

/-- Python `s.strip()` on ASCII input: drop surrounding whitespace. -/
def pyStrip (s : String) : String :=
  String.mk
    (((s.data.dropWhile Char.isWhitespace).reverse.dropWhile
        Char.isWhitespace).reverse)

/-- String drop by character count, Python `s[n:]`. -/
def strDrop (s : String) (n : Nat) : String :=
  String.mk (s.data.drop n)

/-- Whether `p` is a character-level prefix of `s`. -/
def strStartsWith (s p : String) : Bool :=
  startsWithChars s.data p.data

/-- Cache entry record, from `cache/entry.py` (dataclass `CacheEntry`).
The Python `source` field is `Optional[str]` by annotation but receives
whatever `metadata.get("provider", "unknown")` yields, so it is a
`MetaValue` here, with `vNone` standing for Python `None`. -/
structure CacheEntry where
  key : String
  content : List Nat
  content_type : String
  encoding : Option String
  etag : Option String
  last_modified : Option Int
  fetched_at : Int
  expires_at : Option Int
  ttl : Int
  size : Nat
  metadata : MetaDict
  hit_count : Nat
  source : MetaValue
deriving Repr, DecidableEq

namespace CacheEntry

/-- Dataclass construction followed by `__post_init__`: derive `size`
from the content when it was left at 0 and the content is truthy, and
derive `expires_at` from `ttl` when it was not supplied. All arguments
are explicit; call sites pass the Python defaults positionally. -/
def make (key : String) (content : List Nat) (content_type : String)
    (encoding : Option String) (etag : Option String)
    (last_modified : Option Int) (fetched_at : Int)
    (expires_at : Option Int) (ttl : Int) (size : Nat)
    (metadata : MetaDict) (hit_count : Nat) (source : MetaValue) :
    CacheEntry :=
  let size := if size = 0 ∧ content ≠ [] then content.length else size
  let expires_at :=
    if expires_at = none ∧ ttl > 0 then some (fetched_at + ttl) else expires_at
  ⟨key, content, content_type, encoding, etag, last_modified, fetched_at,
    expires_at, ttl, size, metadata, hit_count, source⟩

/-- Construction as performed by callers that do not pass the derived
fields: the `Construct` operation of the spec (`fetched_at` defaults to
the current clock, `expires_at`, `size` and `hit_count` to their
dataclass defaults). -/
def construct (now : Int) (key : String) (content : List Nat)
    (content_type : String) (encoding : Option String)
    (etag : Option String) (last_modified : Option Int) (ttl : Int)
    (metadata : MetaDict) (source : MetaValue) : CacheEntry :=
  make key content content_type encoding etag last_modified now none ttl 0
    metadata 0 source

/-- Property `is_expired`: expired iff an expiry exists and the current
time has reached it. -/
def is_expired (now : Int) (e : CacheEntry) : Bool :=
  match e.expires_at with
  | none => false
  | some t => decide (t ≤ now)

/-- Property `is_fresh`: complement of `is_expired`. -/
def is_fresh (now : Int) (e : CacheEntry) : Bool :=
  !(e.is_expired now)

/-- Property `age`: seconds since `fetched_at`. -/
def age (now : Int) (e : CacheEntry) : Int :=
  now - e.fetched_at

/-- Property `content_hash` with the digest abstracted (MD5 hex in the
source). -/
def content_hash (digest : List Nat → String) (e : CacheEntry) : String :=
  digest e.content

/-- Method `record_hit`: increments the hit counter. -/
def record_hit (e : CacheEntry) : CacheEntry :=
  { e with hit_count := e.hit_count + 1 }

/-- Method `refresh`: replace content, reset `fetched_at`, optionally
replace `ttl`, recompute `expires_at`. -/
def refresh (e : CacheEntry) (new_content : List Nat)
    (new_ttl : Option Int) (now : Int) : CacheEntry :=
  let ttl := match new_ttl with | some t => t | none => e.ttl
  { e with
    content := new_content
    size := new_content.length
    fetched_at := now
    ttl := ttl
    expires_at := if ttl > 0 then some (now + ttl) else none }

end CacheEntry

/-- Parsed metadata sidecar (the JSON object `to_dict` writes and
`from_dict` reads). `none` models an absent field. The `encoding` field
distinguishes absent (outer `none`) from stored JSON null (`some none`),
because `data.get("encoding", "utf-8")` defaults only when the field is
absent. Timestamp fields, when present, are assumed to hold valid
ISO-format strings and are modelled directly as epoch seconds. -/
structure MetaDoc where
  key : Option String
  content_type : Option String
  encoding : Option (Option String)
  etag : Option String
  last_modified : Option Int
  fetched_at : Option Int
  expires_at : Option Int
  ttl : Option Int
  size : Option Nat
  metadata : Option MetaDict
  hit_count : Option Nat
  source : Option MetaValue
  content_hash : Option String
deriving Repr, DecidableEq

namespace CacheEntry

/-- Method `to_dict`: serialize every field but the content, plus the
content digest. -/
def to_dict (digest : List Nat → String) (e : CacheEntry) : MetaDoc :=
  { key := some e.key
    content_type := some e.content_type
    encoding := some e.encoding
    etag := e.etag
    last_modified := e.last_modified
    fetched_at := some e.fetched_at
    expires_at := e.expires_at
    ttl := some e.ttl
    size := some e.size
    metadata := some e.metadata
    hit_count := some e.hit_count
    source := some e.source
    content_hash := some (e.content_hash digest) }

/-- Classmethod `from_dict`: rebuild an entry from sidecar data and
content bytes. A sidecar without the `key` field raises `KeyError` in
the source; that is the `none` result here. Missing optional fields take
the documented defaults; a missing `fetched_at` takes the current
clock. -/
def from_dict (now : Int) (d : MetaDoc) (content : List Nat) :
    Option CacheEntry :=
  match d.key with
  | none => none
  | some k =>
    some (make k content
      (d.content_type.getD "application/octet-stream")
      (match d.encoding with
       | none => some "utf-8"
       | some v => v)
      d.etag
      d.last_modified
      (d.fetched_at.getD now)
      d.expires_at
      (d.ttl.getD 3600)
      (d.size.getD content.length)
      (d.metadata.getD [])
      (d.hit_count.getD 0)
      (d.source.getD .vNone))

end CacheEntry

/-- Drops all leading slash characters, Python `lstrip("/")`. -/
def lstripSlashes (s : String) : String :=
  String.mk (s.data.dropWhile (fun c => c = '/'))

/-- Strips the first matching URI scheme, the loop with `break` in
`generate_cache_key`. -/
def stripScheme (key : String) : String :=
  if strStartsWith key "codex://" then strDrop key 8
  else if strStartsWith key "http://" then strDrop key 7
  else if strStartsWith key "https://" then strDrop key 8
  else if strStartsWith key "file://" then strDrop key 7
  else key

/-- Function `generate_cache_key` from `cache/entry.py`. The
`key.replace("\\", "/")` step is the character map it amounts to. -/
def generate_cache_key (path : String) (provider : Option String) : String :=
  let key := pyStrip path
  let key := stripScheme key
  let key := String.mk (key.data.map (fun c => if c = '\\' then '/' else c))
  let key :=
    match provider with
    | some p => p ++ "/" ++ key
    | none => key
  lstripSlashes key

/-- Wildcard match of a whole name against a pattern with `*` (any run
of characters, slashes included) and `?` (any single character), the
behaviour of `fnmatch.fnmatch` on the patterns this registry uses
(character classes never occur in them). A `*` consumes an arbitrary
run of characters: the remaining pattern may match any suffix. -/
def wildMatch : List Char → List Char → Bool
  | [], s => s.isEmpty
  | '*' :: ps, s => s.tails.any (fun t => wildMatch ps t)
  | '?' :: ps, s =>
    (match s with
     | [] => false
     | _ :: cs => wildMatch ps cs)
  | c :: ps, s =>
    (match s with
     | [] => false
     | c' :: cs => c = c' && wildMatch ps cs)

/-- Function `_match_parts` from `types/registry.py`: match path
segments against pattern segments, where `**` consumes zero or more
whole segments. The `for i in range(len(path_parts) + 1)` search of the
source tries the remaining pattern against every suffix of the path,
which is the scan over `tails` here. Segments are char lists. -/
def matchSegs : List (List Char) → List (List Char) → Bool
  | pathSegs, [] => pathSegs.isEmpty
  | [], pats => pats.all (fun p => decide (p = ['*', '*']))
  | p :: ps, pat :: pats =>
    if pat = ['*', '*'] then
      if pats.isEmpty then true
      else (p :: ps).tails.any (fun suf => matchSegs suf pats)
    else
      wildMatch pat p && matchSegs ps pats

/-- Function `_glob_match`: segment-wise matching with `**` support. -/
def globMatch (path pat : String) : Bool :=
  matchSegs (splitChar '/' path.data) (splitChar '/' pat.data)

/-- Static method `TypeRegistry._matches_patterns`: any pattern matches,
via the segment matcher when the pattern holds `**`, else via plain
`fnmatch`. -/
def matches_patterns (path : String) (patterns : List String) : Bool :=
  patterns.any (fun pat =>
    if hasDoubleStar pat.data then globMatch path pat
    else wildMatch pat.data path.data)

/-- Artifact type definition, from `types/builtin.py`. -/
structure ArtifactType where
  name : String
  patterns : List String
  ttl : Int
  priority : Int
deriving Repr, DecidableEq

/-- Stable insertion placing `t` after every element of at least its
priority; folded over a list this reproduces a stable sort by
descending priority, which is what `sorted(key=lambda t: -t.priority)`
computes. -/
def insertByPriority (t : ArtifactType) :
    List ArtifactType → List ArtifactType
  | [] => [t]
  | h :: rest =>
    if h.priority ≥ t.priority then h :: insertByPriority t rest
    else t :: h :: rest

/-- Stable sort by descending priority. -/
def sortByPriority (ts : List ArtifactType) : List ArtifactType :=
  ts.foldl (fun acc t => insertByPriority t acc) []

/-- Registry state: the values of the `_types` dictionary in insertion
order. -/
structure TypeRegistry where
  types : List ArtifactType
deriving Repr, DecidableEq

namespace TypeRegistry

/-- Method `_get_sorted_types`. -/
def sorted_types (r : TypeRegistry) : List ArtifactType :=
  sortByPriority r.types

/-- Path normalization inside `TypeRegistry.match`: backslashes to
slashes, leading slashes dropped. -/
def normalizePath (path : String) : String :=
  lstripSlashes
    (String.mk (path.data.map (fun c => if c = '\\' then '/' else c)))

/-- Method `match`: first type, in descending-priority order, whose
pattern set matches the normalized path. -/
def matchType (r : TypeRegistry) (path : String) : Option ArtifactType :=
  (r.sorted_types).find? (fun t => matches_patterns (normalizePath path) t.patterns)

/-- Constant `DEFAULT_TTL` from `types/builtin.py` (`TTL.DAY`). -/
def DEFAULT_TTL : Int := 86400

/-- Method `get_ttl`: the matched type TTL, else the registry default. -/
def get_ttl (r : TypeRegistry) (path : String) : Int :=
  match r.matchType path with
  | some t => t.ttl
  | none => DEFAULT_TTL

end TypeRegistry

/-- Table `BUILT_IN_TYPES`, values in dictionary insertion order. -/
def BUILT_IN_TYPES : List ArtifactType :=
  [ ⟨"docs", ["docs/**/*.md", "docs/**/*.mdx", "*.md"], 86400, 10⟩,
    ⟨"config", ["*.yaml", "*.yml", "*.json", "*.toml", ".fractary/**", "config/**"], 3600, 20⟩,
    ⟨"schema", ["schemas/**/*.json", "schemas/**/*.yaml", "**/*.schema.json", "**/*.schema.yaml"], 86400, 30⟩,
    ⟨"templates", ["templates/**/*", "**/*.template.*", "**/*.tmpl"], 604800, 15⟩,
    ⟨"specs", ["specs/**/*.md", "specifications/**/*.md"], 86400, 25⟩,
    ⟨"workflows", [".github/workflows/**/*.yaml", ".github/workflows/**/*.yml"], 21600, 40⟩,
    ⟨"scripts", ["scripts/**/*.sh", "scripts/**/*.py", "bin/**/*"], 43200, 35⟩,
    ⟨"prompts", ["prompts/**/*.md", "prompts/**/*.txt", "**/*.prompt.md"], 3600, 50⟩,
    ⟨"agents", ["agents/**/*", "**/*.agent.yaml", "**/*.agent.md"], 3600, 45⟩,
    ⟨"skills", ["skills/**/*", "**/*.skill.yaml", "**/*.skill.md"], 3600, 45⟩ ]

/-- Function `create_default_registry`: registry holding the built-in
types. -/
def create_default_registry : TypeRegistry :=
  ⟨BUILT_IN_TYPES⟩

/-- Options for provider fetches, from `storage/base.py`. -/
structure FetchOptions where
  timeout : Int
  headers : List (String × String)
  if_none_match : Option String
  if_modified_since : Option Int
  follow_redirects : Bool
deriving Repr, DecidableEq

/-- Result of a provider fetch, from `storage/base.py`. -/
structure FetchResult where
  content : List Nat
  content_type : String
  encoding : Option String
  etag : Option String
  last_modified : Option Int
  size : Nat
  metadata : MetaDict
deriving Repr, DecidableEq

/-- Dataclass construction of `FetchResult` followed by its
`__post_init__` size derivation. -/
def FetchResult.make (content : List Nat) (content_type : String)
    (encoding : Option String) (etag : Option String)
    (last_modified : Option Int) (size : Nat) (metadata : MetaDict) :
    FetchResult :=
  let size := if size = 0 ∧ content ≠ [] then content.length else size
  ⟨content, content_type, encoding, etag, last_modified, size, metadata⟩

/-- Error raised by a storage provider. -/
structure StorageError where
  message : String
  code : String
deriving Repr, DecidableEq

/-- A storage provider, seen through its fetch contract: a function of
the request path and options, failing with a `StorageError` or
succeeding with a `FetchResult`. -/
abbrev StorageFn := String → Option FetchOptions → Except StorageError FetchResult

/-- The manager-facing contract of `FileCacheStore`: a map from cache
keys to entries. -/
abbrev CacheStore := String → Option CacheEntry

/-- Store update performed by `FileCacheStore.put`. -/
def storePut (store : CacheStore) (e : CacheEntry) : CacheStore :=
  fun k => if k = e.key then some e else store k

/-- Manager configuration consulted by `fetch`: the injected type
registry and the `default_ttl` constructor argument. The directory,
entry-count and cleanup-interval settings play no part in the fetch
path (the background-cleanup bookkeeping is modelled separately below
as `ManagerTasks`). -/
structure CacheManager where
  type_registry : TypeRegistry
  default_ttl : Int
deriving Repr

namespace CacheManager

/-- The path-component extraction of `urlparse` as used on `http://`
and `https://` URLs by `_get_ttl`: drop scheme and network location,
cut the fragment and the query, and drop `;parameters` from the last
segment. -/
def urlPath (url : String) : String :=
  let rest :=
    if strStartsWith url "http://" then strDrop url 7
    else if strStartsWith url "https://" then strDrop url 8
    else url
  let netlocLen :=
    (rest.data.takeWhile (fun c => c ≠ '/' ∧ c ≠ '?' ∧ c ≠ '#')).length
  let path := rest.data.drop netlocLen
  let path := path.takeWhile (fun c => c ≠ '#')
  let path := path.takeWhile (fun c => c ≠ '?')
  let lastSlash :=
    match (path.reverse.findIdx? (fun c => c = '/')) with
    | some i => path.length - 1 - i
    | none => 0
  match ((path.drop lastSlash).findIdx? (fun c => c = ';')) with
  | some i => String.mk (path.take (lastSlash + i))
  | none => String.mk path

/-- The file-path derivation inside `CacheManager._get_ttl`: the third
chunk of `path[8:].split("/", 2)` for a `codex://` URI with enough
segments, the URL path component for an `http(s)://` URL; otherwise the
path is used as is. -/
def extract_file_path (path : String) : String :=
  if strStartsWith path "codex://" then
    let parts := splitChar '/' (strDrop path 8).data
    if parts.length ≥ 3 then String.mk (joinSep ['/'] (parts.drop 2))
    else path
  else if strStartsWith path "http://" || strStartsWith path "https://" then
    urlPath path
  else path

/-- Method `_get_ttl`: registry lookup on the derived file path. -/
def get_ttl (cfg : CacheManager) (path : String) : Int :=
  cfg.type_registry.get_ttl (extract_file_path path)

/-- Method `_entry_to_result`: rebuild a `FetchResult` from a cache
entry, tagging the metadata with cache provenance. -/
def entry_to_result (now : Int) (entry : CacheEntry)
    (from_cache stale : Bool) : FetchResult :=
  let md := entry.metadata
  let md := dictSet md "from_cache" (.vBool from_cache)
  let md := dictSet md "cache_key" (.vStr entry.key)
  let md := dictSet md "cache_age" (.vInt (entry.age now))
  let md := dictSet md "cache_hits" (.vInt entry.hit_count)
  let md := if stale then dictSet md "stale" (.vBool true) else md
  FetchResult.make entry.content entry.content_type entry.encoding
    entry.etag entry.last_modified entry.size md

/-- The conditional request options built by `_conditional_fetch`: the
caller timeout and headers (or their defaults), plus the stored
validators when truthy. -/
def cond_options (entry : CacheEntry) (options : Option FetchOptions) :
    FetchOptions :=
  { timeout := match options with | some o => o.timeout | none => 30
    headers := match options with | some o => o.headers | none => []
    if_none_match :=
      match entry.etag with
      | some s => if s = "" then none else some s
      | none => none
    if_modified_since := entry.last_modified
    follow_redirects := true }

/-- Method `_conditional_fetch`: fetch with validators; when the
provider reports not-modified (flag or matching ETag), refresh the
entry in place, persist it, and produce the cached result; otherwise
report that a plain fetch is needed (`none`). Provider errors
propagate to the caller (`fetch` catches them). -/
def conditionalFetch (now : Int) (path : String) (storage : StorageFn)
    (entry : CacheEntry) (options : Option FetchOptions)
    (store : CacheStore) :
    Except StorageError (Option (FetchResult × CacheStore)) := do
  let result ← storage path (some (cond_options entry options))
  let notModified :=
    (match dictGet result.metadata "not_modified" with
     | some v => v.truthy
     | none => false) ||
    (match result.etag with
     | some s => s ≠ "" && decide (entry.etag = some s)
     | none => false)
  if notModified then
    let refreshed := entry.refresh entry.content none now
    return some (entry_to_result now refreshed true false, storePut store refreshed)
  else
    return none

/-- The tail of `fetch` after the cache checks: plain provider fetch,
stale fallback on provider error, TTL determination, entry creation
and persistence. `calls` counts provider invocations already made. -/
def plainFetch (cfg : CacheManager) (now : Int) (path : String)
    (storage : StorageFn) (ttl : Option Int)
    (options : Option FetchOptions) (store : CacheStore) (calls : Nat) :
    Except StorageError (FetchResult × CacheStore × Nat) :=
  let cache_key := generate_cache_key path none
  match storage path options with
  | .error err =>
    match store cache_key with
    | some entry => .ok (entry_to_result now entry true true, store, calls + 1)
    | none => .error err
  | .ok result =>
    let t :=
      match ttl with
      | some t => t
      | none => cfg.get_ttl path
    let entry := CacheEntry.make cache_key result.content
      result.content_type result.encoding result.etag result.last_modified
      now none t 0 result.metadata 0
      ((dictGet result.metadata "provider").getD (.vStr "unknown"))
    .ok (result, storePut store entry, calls + 1)

/-- Method `fetch` from `cache/manager.py`, on an open manager. The
returned triple carries the result, the store after the call, and the
number of storage-provider invocations made. -/
def fetch (cfg : CacheManager) (now : Int) (path : String)
    (storage : StorageFn) (ttl : Option Int) (force_refresh : Bool)
    (options : Option FetchOptions) (store : CacheStore) :
    Except StorageError (FetchResult × CacheStore × Nat) :=
  let cache_key := generate_cache_key path none
  if force_refresh then
    plainFetch cfg now path storage ttl options store 0
  else
    match store cache_key with
    | none => plainFetch cfg now path storage ttl options store 0
    | some entry =>
      if entry.is_fresh now then
        let e := entry.record_hit
        .ok (entry_to_result now e true false, storePut store e, 0)
      else
        match conditionalFetch now path storage entry options store with
        | .error _ => .ok (entry_to_result now entry true true, store, 1)
        | .ok (some (r, store')) => .ok (r, store', 1)
        | .ok none => plainFetch cfg now path storage ttl options store 1

end CacheManager

/-- State of the metadata sidecar file for one key: missing, present
but not decodable as JSON, or parsed. Sidecars whose timestamp fields
hold strings that are present but not ISO-parseable are outside this
model (the source lets that `ValueError` escape; no claim concerns
it). -/
inductive MetaFileState where
  | missing
  | malformed
  | parsed (d : MetaDoc)
deriving Repr, DecidableEq

/-- The two on-disk artifacts of one cache key: the metadata sidecar
and the content blob. -/
structure KeyFiles where
  meta : MetaFileState
  blob : Option (List Nat)
deriving Repr, DecidableEq

namespace FileCacheStore

/-- Effect of `delete(key)` on that key: both artifacts removed. -/
def deleteFiles : KeyFiles :=
  ⟨.missing, none⟩

/-- Method `FileCacheStore.get` restricted to the artifacts of the
requested key, from `cache/persistence.py`. Absent files give absent;
an undecodable sidecar or one without a `key` field is cleaned up and
gives absent; a stored truthy `content_hash` differing from the
recomputed digest is corruption: both artifacts are deleted and the
result is absent. Returns the entry (or `none`) and the artifacts
after the call. -/
def get (digest : List Nat → String) (now : Int) (files : KeyFiles) :
    Option CacheEntry × KeyFiles :=
  match files.blob, files.meta with
  | none, _ => (none, files)
  | some _, .missing => (none, files)
  | some _, .malformed => (none, deleteFiles)
  | some content, .parsed d =>
    match CacheEntry.from_dict now d content with
    | none => (none, deleteFiles)
    | some entry =>
      match d.content_hash with
      | some h =>
        if h ≠ "" ∧ entry.content_hash digest ≠ h then (none, deleteFiles)
        else (some entry, files)
      | none => (some entry, files)

/-- Store contents for the scanning operations: pairs of cache key and
the entry `get` yields for it, in scan order. -/
abbrev StoreList := List (String × CacheEntry)

/-- The keys yielded by `keys()`: one per readable sidecar. -/
def keysOf (s : StoreList) : List String :=
  s.map (fun p => p.1)

/-- Lookup of one key in the scanned store. -/
def storeGet (s : StoreList) (k : String) : Option CacheEntry :=
  (s.find? (fun p => p.1 = k)).map (fun p => p.2)

/-- Method `delete(key)`: removes the artifacts of `key`, reporting
whether anything was removed. -/
def storeDelete (s : StoreList) (k : String) : StoreList × Bool :=
  if s.any (fun p => p.1 = k) then
    (s.filter (fun p => p.1 ≠ k), true)
  else (s, false)

/-- Method `entries(include_expired=True)`: `get` applied to every
scanned key, skipping absent results. -/
def entriesAll (s : StoreList) : List CacheEntry :=
  (keysOf s).filterMap (storeGet s)

/-- The deletion loop of `clear_expired`: delete each collected key,
counting successful deletions. -/
def deleteKeys (s : StoreList) : List String → Nat × StoreList
  | [] => (0, s)
  | k :: ks =>
    let r := storeDelete s k
    let rest := deleteKeys r.1 ks
    (if r.2 then rest.1 + 1 else rest.1, rest.2)

/-- Method `clear_expired`: collect the keys of entries expired at scan
time, then delete them, returning the count and the store left
behind. -/
def clear_expired (now : Int) (s : StoreList) : Nat × StoreList :=
  let keys_to_delete :=
    ((entriesAll s).filter (fun e => e.is_expired now)).map (fun e => e.key)
  deleteKeys s keys_to_delete

/-- The filesystem-unsafe characters replaced by `_key_to_path`. -/
def unsafeChars : List Char :=
  ['<', '>', ':', '\"', '|', '?', '*']

/-- Method `_key_to_path` from `cache/persistence.py`, over char lists
(every string operation it performs is character-wise). The SHA-256
short hash used for over-long keys is abstracted as `shortHash`. An
over-long key becomes a 50-character readable slug (slashes and
backslashes replaced) plus the hash suffix; otherwise unsafe characters
are replaced and paths of more than 4 segments keep their first two
segments with the remainder collapsed into one underscore-joined
segment. -/
def key_to_path (shortHash : List Char → List Char)
    (max_key_length : Nat) (key : List Char) : List Char :=
  if key.length > max_key_length then
    let readable :=
      (key.take 50).map (fun ch => if ch = '/' ∨ ch = '\\' then '_' else ch)
    readable ++ ['_'] ++ shortHash key
  else
    let safe := key.map (fun ch => if ch ∈ unsafeChars then '_' else ch)
    let parts := splitChar '/' safe
    let parts :=
      if parts.length > 4 then parts.take 2 ++ [joinSep ['_'] (parts.drop 2)]
      else parts
    joinSep ['/'] parts

/-- Method `_get_paths`: sidecar and blob paths derived from the safe
path. -/
def get_paths (shortHash : List Char → List Char) (max_key_length : Nat)
    (key : List Char) : List Char × List Char :=
  let safe := key_to_path shortHash max_key_length key
  (safe ++ ".data".data, safe ++ ".meta".data)

end FileCacheStore

/-- Task bookkeeping of the manager: the `_cleanup_task` handle slot,
the `_last_cleanup` stamp, the identities of tasks spawned through
`asyncio.create_task`, and those that received a cancellation. -/
structure ManagerTasks where
  closed : Bool
  cleanup_task : Option Nat
  last_cleanup : Int
  spawned : List Nat
  cancelled : List Nat
deriving Repr, DecidableEq

namespace CacheManager

/-- Constructor state: not closed, no tracked cleanup task,
`_last_cleanup` set to the current clock. -/
def initTasks (now : Int) : ManagerTasks :=
  ⟨false, none, now, [], []⟩

/-- Method `_maybe_cleanup`: when the cleanup interval has elapsed,
spawn a background cleanup task (`asyncio.create_task(self.cleanup())`).
The source drops the created handle, so `cleanup_task` is left
untouched. `tid` is the identity of the task the runtime would
create. -/
def maybe_cleanup (cleanup_interval : Int) (now : Int) (tid : Nat)
    (st : ManagerTasks) : ManagerTasks :=
  if now - st.last_cleanup ≥ cleanup_interval then
    { st with spawned := st.spawned ++ [tid] }
  else st

/-- Method `close`: cancel the tracked cleanup task when there is one
(awaiting it and swallowing its `CancelledError`), then mark the
manager closed. -/
def closeTasks (st : ManagerTasks) : ManagerTasks :=
  let st :=
    match st.cleanup_task with
    | some t => { st with cancelled := st.cancelled ++ [t] }
    | none => st
  { st with closed := true }

end CacheManager

/-!
Concrete inputs used by the closed instances below.
-/

/-- A stand-in digest function for concrete evaluations. -/
def constDigest : List Nat → String := fun _ => "d41d8"

/-- A sidecar whose stored content hash is the empty string. -/
def emptyHashDoc : MetaDoc :=
  ⟨some "k", none, none, none, none, some 0, none, some 3600, none, none,
    none, none, some ""⟩

/-- A sidecar whose stored content hash disagrees with every digest
`constDigest` yields. -/
def badHashDoc : MetaDoc :=
  ⟨some "k", none, none, none, none, some 0, none, some 3600, none, none,
    none, none, some "x"⟩

/-- An entry fetched at time 0 with a 5-second TTL: stale at time 100. -/
def staleEntry : CacheEntry :=
  CacheEntry.construct 0 "a.md" [1] "text/plain" (some "utf-8") none none 5
    [] .vNone

/-- An entry fetched at time 100 with a one-hour TTL: fresh at 100. -/
def freshEntry : CacheEntry :=
  CacheEntry.construct 100 "b.md" [2] "text/plain" (some "utf-8") none none
    3600 [] .vNone

/-- A store holding only `staleEntry` under its key. -/
def singleStore : CacheStore :=
  fun k => if k = "a.md" then some staleEntry else none

/-- A store holding only `freshEntry` under its key. -/
def freshStore : CacheStore :=
  fun k => if k = "b.md" then some freshEntry else none

/-- A provider whose fetch always raises a storage error. -/
def failingStorage : StorageFn :=
  fun _ _ => .error ⟨"boom", "REQUEST_FAILED"⟩

/-- A fixed successful fetch result. -/
def helloResult : FetchResult :=
  FetchResult.make [35, 32, 72] "text/markdown" (some "utf-8") none none 0 []

/-- A provider that always succeeds with `helloResult`. -/
def okStorage : StorageFn :=
  fun _ _ => .ok helloResult

/-- A manager over the default registry. -/
def defaultCfg : CacheManager :=
  ⟨create_default_registry, 3600⟩

/-- A two-entry scanned store: one stale, one fresh at time 100. -/
def sampleStoreList : FileCacheStore.StoreList :=
  [("a.md", staleEntry), ("b.md", freshEntry)]

/-- A store with no entries. -/
def emptyStore : CacheStore := fun _ => none

/-- A stand-in short-hash function producing a fixed slug. -/
def constHash : List Char → List Char := fun _ => ['0', '1', '2', '3']

/-- A fixed storage error value. -/
def boomError : StorageError := ⟨"boom", "REQUEST_FAILED"⟩

/-!
Theorems. Claim theorems are marked with their claim identifier;
auxiliary lemmas come first.
-/

theorem dictGet_nil (k : String) : dictGet [] k = none := rfl

theorem dictGet_cons (a : String) (w : MetaValue) (m : MetaDict)
    (k : String) :
    dictGet ((a, w) :: m) k = if a = k then some w else dictGet m k := by
  by_cases h : a = k <;> simp [dictGet, List.find?_cons, h]

theorem dictGet_cons' (p : String × MetaValue) (m : MetaDict) (k : String) :
    dictGet (p :: m) k = if p.1 = k then some p.2 else dictGet m k := by
  obtain ⟨a, w⟩ := p
  exact dictGet_cons a w m k

theorem dictGet_overwrite (k : String) (v : MetaValue) :
    ∀ m : MetaDict, m.any (fun p => p.1 = k) = true →
      dictGet (m.map (fun p => if p.1 = k then (k, v) else p)) k = some v := by
  intro m
  induction m with
  | nil => intro h; simp at h
  | cons p rest ih =>
    intro h
    rw [List.map_cons, dictGet_cons']
    by_cases hp : p.1 = k
    · simp [if_pos hp]
    · rw [List.any_cons, Bool.or_eq_true_iff] at h
      rcases h with h | h
      · exact absurd (by simpa using h) hp
      · simp only [if_neg hp]
        exact ih h

theorem dictGet_append_right (k : String) (v : MetaValue) :
    ∀ m : MetaDict, m.any (fun p => p.1 = k) = false →
      dictGet (m ++ [(k, v)]) k = some v := by
  intro m
  induction m with
  | nil => intro _; simp [dictGet_cons']
  | cons p rest ih =>
    intro h
    rw [List.any_cons, Bool.or_eq_false_iff] at h
    have hp : ¬ p.1 = k := by simpa using h.1
    rw [List.cons_append, dictGet_cons', if_neg hp]
    exact ih h.2

theorem dictGet_map_ne (k k' : String) (v : MetaValue) (h : k' ≠ k) :
    ∀ m : MetaDict,
      dictGet (m.map (fun p => if p.1 = k then (k, v) else p)) k' =
        dictGet m k' := by
  intro m
  induction m with
  | nil => rfl
  | cons p rest ih =>
    rw [List.map_cons, dictGet_cons', dictGet_cons', ih]
    by_cases hp : p.1 = k
    · have hk : ¬ k = k' := fun hc => h hc.symm
      have hpk : ¬ p.1 = k' := by rw [hp]; exact hk
      rw [if_neg hpk]
      simp only [if_pos hp]
      simp [hk]
    · rw [if_neg hp]

theorem dictGet_append_ne (k k' : String) (v : MetaValue) (h : k' ≠ k) :
    ∀ m : MetaDict, dictGet (m ++ [(k, v)]) k' = dictGet m k' := by
  intro m
  induction m with
  | nil =>
    have hk : ¬ k = k' := fun hc => h hc.symm
    simp [dictGet_cons', hk, dictGet]
  | cons p rest ih =>
    rw [List.cons_append, dictGet_cons', dictGet_cons', ih]

theorem dictGet_dictSet_self (m : MetaDict) (k : String) (v : MetaValue) :
    dictGet (dictSet m k v) k = some v := by
  unfold dictSet
  by_cases h : m.any (fun p => p.1 = k) = true
  · rw [if_pos h]
    exact dictGet_overwrite k v m h
  · have h' : m.any (fun p => p.1 = k) = false := Bool.eq_false_iff.mpr h
    rw [if_neg h]
    exact dictGet_append_right k v m h'

theorem dictGet_dictSet_ne (m : MetaDict) (k k' : String) (v : MetaValue)
    (h : k' ≠ k) : dictGet (dictSet m k v) k' = dictGet m k' := by
  unfold dictSet
  by_cases hany : m.any (fun p => p.1 = k) = true
  · rw [if_pos hany]
    exact dictGet_map_ne k k' v h m
  · rw [if_neg hany]
    exact dictGet_append_ne k k' v h m

/-- C4: after construction (the Construct operation, which supplies no
explicit `size` or `expires_at`) and after any `refresh`, the size is
the content length and `expires_at` is `fetched_at + ttl` for a
positive TTL and absent otherwise; for every entry, `is_expired` holds
exactly when an expiry exists and the clock has reached it, and
`is_fresh` is its negation. -/
theorem entry_construct_refresh_invariants (now now' : Int) (key : String)
    (content : List Nat) (content_type : String) (encoding : Option String)
    (etag : Option String) (last_modified : Option Int) (ttl : Int)
    (metadata : MetaDict) (source : MetaValue) (e0 : CacheEntry)
    (new_content : List Nat) (new_ttl : Option Int) :
    ((CacheEntry.construct now key content content_type encoding etag
        last_modified ttl metadata source).size =
      (CacheEntry.construct now key content content_type encoding etag
        last_modified ttl metadata source).content.length) ∧
    ((CacheEntry.construct now key content content_type encoding etag
        last_modified ttl metadata source).expires_at =
      (if (CacheEntry.construct now key content content_type encoding etag
            last_modified ttl metadata source).ttl > 0 then
        some ((CacheEntry.construct now key content content_type encoding
            etag last_modified ttl metadata source).fetched_at +
          (CacheEntry.construct now key content content_type encoding etag
            last_modified ttl metadata source).ttl)
      else none)) ∧
    ((e0.refresh new_content new_ttl now).size =
      (e0.refresh new_content new_ttl now).content.length) ∧
    ((e0.refresh new_content new_ttl now).expires_at =
      (if (e0.refresh new_content new_ttl now).ttl > 0 then
        some ((e0.refresh new_content new_ttl now).fetched_at +
          (e0.refresh new_content new_ttl now).ttl)
      else none)) ∧
    (∀ x : CacheEntry,
      (x.is_expired now' = true ↔ ∃ t, x.expires_at = some t ∧ t ≤ now') ∧
      x.is_fresh now' = !(x.is_expired now')) := by
  refine ⟨?_, ?_, ?_, ?_, ?_⟩
  · by_cases h : content = [] <;>
      simp [CacheEntry.construct, CacheEntry.make, h]
  · by_cases h : ttl > 0 <;>
      simp [CacheEntry.construct, CacheEntry.make, h]
  · simp [CacheEntry.refresh]
  · simp [CacheEntry.refresh]
  · intro x
    constructor
    · unfold CacheEntry.is_expired
      cases hx : x.expires_at with
      | none => simp [hx]
      | some t => simp [hx]
    · rfl

/-- C5: deserializing the serialized metadata together with the
original content reproduces the key, TTL, ETag and content type, and
yields an equal content digest. -/
theorem entry_metadata_round_trip (digest : List Nat → String) (now : Int)
    (e : CacheEntry) :
    ∃ e', CacheEntry.from_dict now (e.to_dict digest) e.content = some e' ∧
      e'.key = e.key ∧ e'.ttl = e.ttl ∧ e'.etag = e.etag ∧
      e'.content_type = e.content_type ∧
      e'.content_hash digest = e.content_hash digest := by
  refine ⟨_, rfl, ?_, ?_, ?_, ?_, ?_⟩ <;>
    simp [CacheEntry.from_dict, CacheEntry.to_dict, CacheEntry.make,
      CacheEntry.content_hash]

/-- C6: the cleanup task spawned by `_maybe_cleanup` is never recorded
in the `_cleanup_task` slot (the handle returned by
`asyncio.create_task` is dropped), so a `close` issued while such a
task is in flight cancels nothing — contradicting the documented
close-cancels-cleanup behaviour, whose machinery (`_cleanup_task`, the
cancel-and-swallow block in `close`) is present but never reached. -/
theorem close_skips_untracked_cleanup_task :
    (∀ (interval now : Int) (tid : Nat) (st : ManagerTasks),
        (CacheManager.maybe_cleanup interval now tid st).cleanup_task =
          st.cleanup_task) ∧
    7 ∈ (CacheManager.maybe_cleanup 0 0 7 (CacheManager.initTasks 0)).spawned ∧
    (CacheManager.closeTasks
        (CacheManager.maybe_cleanup 0 0 7 (CacheManager.initTasks 0))).cancelled = [] ∧
    (CacheManager.closeTasks
        (CacheManager.maybe_cleanup 0 0 7 (CacheManager.initTasks 0))).closed = true := by
  refine ⟨?_, by decide, by decide, by decide⟩
  intro interval now tid st
  unfold CacheManager.maybe_cleanup
  split <;> rfl

/-- C2: a fetch without `force_refresh` that finds a fresh entry makes
no storage-provider call, returns the cached content tagged
`from_cache=true`, and persists the entry with its hit count increased
by exactly one. -/
theorem fetch_fresh_hit_no_storage_call (cfg : CacheManager) (now : Int)
    (path : String) (storage : StorageFn) (ttl : Option Int)
    (options : Option FetchOptions) (store : CacheStore) (e : CacheEntry)
    (hentry : store (generate_cache_key path none) = some e)
    (hfresh : e.is_fresh now = true) :
    CacheManager.fetch cfg now path storage ttl false options store =
      .ok (CacheManager.entry_to_result now e.record_hit true false,
           storePut store e.record_hit, 0) ∧
    e.record_hit.hit_count = e.hit_count + 1 ∧
    (e.key = generate_cache_key path none →
      storePut store e.record_hit (generate_cache_key path none) =
        some e.record_hit) ∧
    (CacheManager.entry_to_result now e.record_hit true false).content =
      e.content ∧
    dictGet (CacheManager.entry_to_result now e.record_hit true false).metadata
      "from_cache" = some (.vBool true) := by
  refine ⟨?_, ?_, ?_, ?_, ?_⟩
  · simp [CacheManager.fetch, hentry, hfresh]
  · simp [CacheEntry.record_hit]
  · intro h
    simp [storePut, CacheEntry.record_hit, h]
  · simp [CacheManager.entry_to_result, FetchResult.make,
      CacheEntry.record_hit]
  · simp only [CacheManager.entry_to_result, FetchResult.make,
      Bool.false_eq_true, if_false]
    rw [dictGet_dictSet_ne _ "cache_hits" "from_cache" _ (by decide),
      dictGet_dictSet_ne _ "cache_age" "from_cache" _ (by decide),
      dictGet_dictSet_ne _ "cache_key" "from_cache" _ (by decide),
      dictGet_dictSet_self]

theorem plainFetch_error_iff (cfg : CacheManager) (now : Int)
    (path : String) (storage : StorageFn) (ttl : Option Int)
    (options : Option FetchOptions) (store : CacheStore) (calls : Nat)
    (err : StorageError) :
    CacheManager.plainFetch cfg now path storage ttl options store calls =
        .error err ↔
      storage path options = .error err ∧
        store (generate_cache_key path none) = none := by
  unfold CacheManager.plainFetch
  cases hs : storage path options with
  | error e =>
    cases hst : store (generate_cache_key path none) with
    | none => simp [hst]
    | some entry => simp [hst]
  | ok r => simp

theorem conditionalFetch_error (now : Int) (path : String)
    (storage : StorageFn) (entry : CacheEntry)
    (options : Option FetchOptions) (store : CacheStore)
    (err : StorageError)
    (hc : storage path (some (CacheManager.cond_options entry options)) =
      .error err) :
    CacheManager.conditionalFetch now path storage entry options store =
      .error err := by
  unfold CacheManager.conditionalFetch
  rw [hc]
  rfl

/-- C1: when the storage provider raises an error — during the
conditional revalidation of a stale entry or during the plain fetch —
`fetch` returns a result built from any entry the store holds for the
key, tagged `from_cache=true` and `stale=true`; when no entry exists
and the plain fetch errors, the `StorageError` is re-raised to the
caller (and every error `fetch` propagates arises exactly that way). -/
theorem fetch_storage_error_stale_fallback (cfg : CacheManager)
    (now : Int) (path : String) (storage : StorageFn) (ttl : Option Int)
    (force_refresh : Bool) (options : Option FetchOptions)
    (store : CacheStore) :
    (∀ err,
      CacheManager.fetch cfg now path storage ttl force_refresh options
          store = .error err →
        store (generate_cache_key path none) = none ∧
          storage path options = .error err) ∧
    (∀ err, store (generate_cache_key path none) = none →
      storage path options = .error err →
      CacheManager.fetch cfg now path storage ttl force_refresh options
          store = .error err) ∧
    (∀ e err, store (generate_cache_key path none) = some e →
      force_refresh = false → e.is_fresh now = false →
      storage path (some (CacheManager.cond_options e options)) =
          .error err →
      CacheManager.fetch cfg now path storage ttl force_refresh options
          store =
        .ok (CacheManager.entry_to_result now e true true, store, 1)) ∧
    (∀ e err, store (generate_cache_key path none) = some e →
      force_refresh = true →
      storage path options = .error err →
      CacheManager.fetch cfg now path storage ttl force_refresh options
          store =
        .ok (CacheManager.entry_to_result now e true true, store, 1)) ∧
    (∀ e : CacheEntry,
      dictGet (CacheManager.entry_to_result now e true true).metadata
          "stale" = some (.vBool true) ∧
      dictGet (CacheManager.entry_to_result now e true true).metadata
          "from_cache" = some (.vBool true)) := by
  refine ⟨?_, ?_, ?_, ?_, ?_⟩
  · intro err h
    by_cases hf : force_refresh = true
    · simp only [CacheManager.fetch, if_pos hf] at h
      have := (plainFetch_error_iff cfg now path storage ttl options
        store 0 err).mp h
      exact ⟨this.2, this.1⟩
    · simp only [CacheManager.fetch, if_neg hf] at h
      cases hst : store (generate_cache_key path none) with
      | none =>
        simp only [hst] at h
        have := (plainFetch_error_iff cfg now path storage ttl options
          store 0 err).mp h
        exact ⟨rfl, this.1⟩
      | some entry =>
        simp only [hst] at h
        by_cases hfr : entry.is_fresh now = true
        · simp [hfr] at h
        · simp only [if_neg hfr] at h
          cases hcf : CacheManager.conditionalFetch now path storage entry
              options store with
          | error e2 => simp [hcf] at h
          | ok r =>
            cases r with
            | none =>
              simp only [hcf] at h
              have h2 := (plainFetch_error_iff cfg now path storage ttl
                options store 1 err).mp h
              rw [hst] at h2
              exact absurd h2.2 (by simp)
            | some pr =>
              obtain ⟨r1, st1⟩ := pr
              simp [hcf] at h
  · intro err hst hs
    by_cases hf : force_refresh = true
    · simp [CacheManager.fetch, CacheManager.plainFetch, hf, hst, hs]
    · simp [CacheManager.fetch, CacheManager.plainFetch, hf, hst, hs]
  · intro e err hst hforce hstale hc
    have hcf := conditionalFetch_error now path storage e options store err hc
    simp [CacheManager.fetch, hforce, hst, hstale, hcf]
  · intro e err hst hforce hs
    simp [CacheManager.fetch, CacheManager.plainFetch, hforce, hst, hs]
  · intro e
    constructor
    · simp only [CacheManager.entry_to_result, FetchResult.make, if_pos]
      rw [dictGet_dictSet_self]
    · simp only [CacheManager.entry_to_result, FetchResult.make, if_pos]
      rw [dictGet_dictSet_ne _ "stale" "from_cache" _ (by decide),
        dictGet_dictSet_ne _ "cache_hits" "from_cache" _ (by decide),
        dictGet_dictSet_ne _ "cache_age" "from_cache" _ (by decide),
        dictGet_dictSet_ne _ "cache_key" "from_cache" _ (by decide),
        dictGet_dictSet_self]

/-- C10: two managers differing only in the `default_ttl` constructor
argument produce identical fetch behaviour — stored TTLs included —
because the fetch path consults only the type registry; unmatched
paths receive the registry constant `DEFAULT_TTL`, which is 86400. -/
theorem default_ttl_noninterference (reg : TypeRegistry) (d1 d2 : Int)
    (now : Int) (path : String) (storage : StorageFn) (ttl : Option Int)
    (force_refresh : Bool) (options : Option FetchOptions)
    (store : CacheStore) :
    CacheManager.fetch ⟨reg, d1⟩ now path storage ttl force_refresh
        options store =
      CacheManager.fetch ⟨reg, d2⟩ now path storage ttl force_refresh
        options store ∧
    (∀ p, TypeRegistry.matchType reg p = none →
      TypeRegistry.get_ttl reg p = 86400) ∧
    TypeRegistry.DEFAULT_TTL = 86400 := by
  refine ⟨rfl, ?_, rfl⟩
  intro p h
  simp [TypeRegistry.get_ttl, h, TypeRegistry.DEFAULT_TTL]

theorem mem_insertByPriority (t x : ArtifactType) :
    ∀ l : List ArtifactType,
      x ∈ insertByPriority t l ↔ x = t ∨ x ∈ l := by
  intro l
  induction l with
  | nil => simp [insertByPriority]
  | cons h rest ih =>
    unfold insertByPriority
    by_cases hp : h.priority ≥ t.priority
    · rw [if_pos hp]
      simp only [List.mem_cons, ih]
      tauto
    · rw [if_neg hp]
      simp only [List.mem_cons]

theorem mem_sortByPriority_aux (x : ArtifactType) :
    ∀ (l acc : List ArtifactType),
      x ∈ l.foldl (fun a t => insertByPriority t a) acc ↔
        x ∈ acc ∨ x ∈ l := by
  intro l
  induction l with
  | nil => simp
  | cons h rest ih =>
    intro acc
    simp only [List.foldl_cons, ih, mem_insertByPriority, List.mem_cons]
    tauto

theorem mem_sortByPriority (x : ArtifactType) (l : List ArtifactType) :
    x ∈ sortByPriority l ↔ x ∈ l := by
  unfold sortByPriority
  rw [mem_sortByPriority_aux]
  simp

theorem pairwise_insertByPriority (t : ArtifactType) :
    ∀ l : List ArtifactType,
      l.Pairwise (fun a b => b.priority ≤ a.priority) →
      (insertByPriority t l).Pairwise (fun a b => b.priority ≤ a.priority) := by
  intro l
  induction l with
  | nil => intro _; simp [insertByPriority]
  | cons h rest ih =>
    intro hp
    rw [List.pairwise_cons] at hp
    unfold insertByPriority
    by_cases hge : h.priority ≥ t.priority
    · rw [if_pos hge]
      rw [List.pairwise_cons]
      refine ⟨?_, ih hp.2⟩
      intro y hy
      rcases (mem_insertByPriority t y rest).mp hy with hy | hy
      · rw [hy]; exact hge
      · exact hp.1 y hy
    · rw [if_neg hge]
      rw [List.pairwise_cons]
      constructor
      · intro y hy
        rcases List.mem_cons.mp hy with hy | hy
        · rw [hy]; omega
        · have := hp.1 y hy
          omega
      · exact List.pairwise_cons.mpr hp

theorem pairwise_sortByPriority_aux :
    ∀ (l acc : List ArtifactType),
      acc.Pairwise (fun a b => b.priority ≤ a.priority) →
      (l.foldl (fun a t => insertByPriority t a) acc).Pairwise
        (fun a b => b.priority ≤ a.priority) := by
  intro l
  induction l with
  | nil => intro acc h; simpa using h
  | cons x rest ih =>
    intro acc h
    simp only [List.foldl_cons]
    exact ih _ (pairwise_insertByPriority x acc h)

theorem pairwise_sortByPriority (l : List ArtifactType) :
    (sortByPriority l).Pairwise (fun a b => b.priority ≤ a.priority) :=
  pairwise_sortByPriority_aux l [] (by simp)

theorem find?_sorted_max (f : ArtifactType → Bool) :
    ∀ l : List ArtifactType,
      l.Pairwise (fun a b => b.priority ≤ a.priority) →
      ∀ t', l.find? f = some t' →
        ∀ t ∈ l, f t = true → t.priority ≤ t'.priority := by
  intro l
  induction l with
  | nil => intro _ t' h; simp at h
  | cons x rest ih =>
    intro hp t' hf t ht hft
    rw [List.pairwise_cons] at hp
    cases hfx : f x with
    | true =>
      rw [List.find?_cons_of_pos _ hfx] at hf
      injection hf with hf
      rcases List.mem_cons.mp ht with ht | ht
      · rw [ht, hf]
      · rw [← hf]; exact hp.1 t ht
    | false =>
      rw [List.find?_cons_of_neg _ (by simp [hfx])] at hf
      rcases List.mem_cons.mp ht with ht | ht
      · rw [ht] at hft; rw [hft] at hfx; cases hfx
      · exact ih hp.2 t' hf t ht hft

theorem find?_mem_exists (f : ArtifactType → Bool) :
    ∀ l : List ArtifactType, ∀ t ∈ l, f t = true →
      ∃ t', l.find? f = some t' ∧ f t' = true := by
  intro l
  induction l with
  | nil => intro t ht; simp at ht
  | cons x rest ih =>
    intro t ht hft
    cases hfx : f x with
    | true => exact ⟨x, List.find?_cons_of_pos _ hfx, hfx⟩
    | false =>
      rcases List.mem_cons.mp ht with ht | ht
      · rw [ht] at hft; rw [hft] at hfx; cases hfx
      · obtain ⟨t', h1, h2⟩ := ih t ht hft
        exact ⟨t', by rw [List.find?_cons_of_neg _ (by simp [hfx])]; exact h1, h2⟩

/-- C8: a fetch without an explicit TTL that performs a successful
plain storage fetch stores an entry whose TTL comes from the type
registry applied to the derived file path; the registry scans types in
descending-priority order and the first matching type wins (so the
result of a match carries at least the priority of any matching type);
with the default registry a `docs/**/*.md` path gets TTL 86400 and an
unmatched path gets the registry-wide default. -/
theorem plain_fetch_ttl_from_registry (cfg : CacheManager) (now : Int)
    (path : String) (storage : StorageFn) (force_refresh : Bool)
    (options : Option FetchOptions) (store : CacheStore) :
    (∀ result calls, storage path options = .ok result →
      ∃ e, CacheManager.plainFetch cfg now path storage none options store
            calls = .ok (result, storePut store e, calls + 1) ∧
        e.ttl = cfg.type_registry.get_ttl
          (CacheManager.extract_file_path path) ∧
        e.key = generate_cache_key path none ∧
        storePut store e (generate_cache_key path none) = some e) ∧
    (store (generate_cache_key path none) = none ∨ force_refresh = true →
      CacheManager.fetch cfg now path storage none force_refresh options
          store =
        CacheManager.plainFetch cfg now path storage none options store 0) ∧
    (∀ (r : TypeRegistry) (q : String), ∀ t ∈ r.types,
      matches_patterns (TypeRegistry.normalizePath q) t.patterns = true →
      ∃ t', r.matchType q = some t' ∧ t.priority ≤ t'.priority ∧
        matches_patterns (TypeRegistry.normalizePath q) t'.patterns = true ∧
        r.get_ttl q = t'.ttl) ∧
    globMatch "docs/guide/api.md" "docs/**/*.md" = true ∧
    create_default_registry.get_ttl "docs/guide/api.md" = 86400 ∧
    create_default_registry.matchType "src/main.rs" = none ∧
    create_default_registry.get_ttl "src/main.rs" =
      TypeRegistry.DEFAULT_TTL := by
  refine ⟨?_, ?_, ?_, by decide, by decide, by decide, by decide⟩
  · intro result calls hs
    refine ⟨CacheEntry.make (generate_cache_key path none) result.content
      result.content_type result.encoding result.etag result.last_modified
      now none (cfg.get_ttl path) 0 result.metadata 0
      ((dictGet result.metadata "provider").getD (.vStr "unknown")),
      ?_, ?_, ?_, ?_⟩
    · simp [CacheManager.plainFetch, hs]
    · simp [CacheEntry.make, CacheManager.get_ttl]
    · simp [CacheEntry.make]
    · simp [storePut, CacheEntry.make]
  · intro h
    rcases h with h | h
    · by_cases hf : force_refresh = true
      · simp [CacheManager.fetch, hf]
      · simp [CacheManager.fetch, hf, h]
    · simp [CacheManager.fetch, h]
  · intro r q t ht hmatch
    have htm : t ∈ r.sorted_types :=
      (mem_sortByPriority t r.types).mpr ht
    obtain ⟨t', h1, h2⟩ := find?_mem_exists
      (fun t => matches_patterns (TypeRegistry.normalizePath q) t.patterns)
      r.sorted_types t htm hmatch
    refine ⟨t', ?_, ?_, h2, ?_⟩
    · exact h1
    · exact find?_sorted_max _ r.sorted_types
        (pairwise_sortByPriority r.types) t' h1 t htm hmatch
    · simp only [TypeRegistry.get_ttl, TypeRegistry.matchType]
      rw [h1]

theorem from_dict_content (now : Int) (d : MetaDoc) (c : List Nat)
    (e : CacheEntry) (h : CacheEntry.from_dict now d c = some e) :
    e.content = c := by
  unfold CacheEntry.from_dict at h
  cases hk : d.key with
  | none => rw [hk] at h; cases h
  | some k =>
    rw [hk] at h
    injection h with h
    rw [← h]
    simp [CacheEntry.make]

/-- C3 counterexample: both artifacts are present and the recomputed
digest differs from the `content_hash` stored in the sidecar (the
stored hash is the empty string), yet `get` returns the entry and
deletes nothing: the Python truthiness guard
`metadata.get("content_hash")` skips the integrity check for an empty
stored hash, where the claim requires deletion and an absent result. -/
theorem get_empty_hash_skips_check :
    (FileCacheStore.get constDigest 0
        ⟨.parsed emptyHashDoc, some [1]⟩).1.isSome = true ∧
    (FileCacheStore.get constDigest 0
        ⟨.parsed emptyHashDoc, some [1]⟩).2 =
      ⟨.parsed emptyHashDoc, some [1]⟩ ∧
    emptyHashDoc.content_hash = some "" ∧
    constDigest [1] ≠ "" := by
  refine ⟨by decide, by decide, by decide, by decide⟩

/-- C3 (amended): `get` on a key with either artifact missing returns
absent without raising or touching the files; when both artifacts are
present and the sidecar stores a non-empty `content_hash` differing
from the digest recomputed from the content, `get` deletes both
artifacts and returns absent (an empty or absent stored hash disables
the integrity check). -/
theorem get_corruption_self_healing (digest : List Nat → String)
    (now : Int) (files : KeyFiles) (d : MetaDoc) (content : List Nat)
    (h : String) :
    ((files.blob = none ∨ files.meta = .missing) →
      FileCacheStore.get digest now files = (none, files)) ∧
    (files = ⟨.parsed d, some content⟩ → d.content_hash = some h →
      h ≠ "" → digest content ≠ h →
      FileCacheStore.get digest now files =
        (none, FileCacheStore.deleteFiles)) := by
  constructor
  · intro hmiss
    rcases hmiss with hb | hm
    · simp [FileCacheStore.get, hb]
    · cases hb : files.blob with
      | none => simp [FileCacheStore.get, hb]
      | some c => simp [FileCacheStore.get, hb, hm]
  · intro hf hch hne hdig
    subst hf
    simp only [FileCacheStore.get]
    cases hfd : CacheEntry.from_dict now d content with
    | none => simp [hfd]
    | some entry =>
      simp only [hfd, hch]
      rw [if_pos]
      refine ⟨hne, ?_⟩
      rw [CacheEntry.content_hash, from_dict_content now d content entry hfd]
      exact hdig

theorem splitChar_ne_nil (c : Char) : ∀ l : List Char, splitChar c l ≠ [] := by
  intro l
  cases l with
  | nil => simp [splitChar]
  | cons x xs =>
    unfold splitChar
    cases hs : splitChar c xs with
    | nil => simp
    | cons h t =>
      by_cases hx : x = c <;> simp [hx]

theorem mem_splitChar_not_mem (c : Char) :
    ∀ (l : List Char) (p : List Char), p ∈ splitChar c l → c ∉ p := by
  intro l
  induction l with
  | nil =>
    intro p hp
    simp [splitChar] at hp
    simp [hp]
  | cons x xs ih =>
    intro p hp
    cases hs : splitChar c xs with
    | nil => exact absurd hs (splitChar_ne_nil c xs)
    | cons h t =>
      simp only [splitChar, hs] at hp
      by_cases hx : x = c
      · rw [if_pos hx] at hp
        rcases List.mem_cons.mp hp with hp | hp
        · simp [hp]
        · exact ih p (by rw [hs]; exact hp)
      · rw [if_neg hx] at hp
        rcases List.mem_cons.mp hp with hp | hp
        · rw [hp]
          intro hc
          rcases List.mem_cons.mp hc with hc | hc
          · exact hx hc.symm
          · exact ih h (by rw [hs]; exact List.mem_cons_self h t) hc
        · exact ih p (by rw [hs]; exact List.mem_cons_of_mem h hp)

theorem not_mem_joinSep (c d : Char) (hcd : c ≠ d) :
    ∀ parts : List (List Char), (∀ p ∈ parts, c ∉ p) →
      c ∉ joinSep [d] parts := by
  intro parts
  induction parts with
  | nil => intro _; simp [joinSep]
  | cons p ps ih =>
    intro hall
    cases ps with
    | nil =>
      simp only [joinSep]
      exact hall p (List.mem_cons_self p [])
    | cons q ps' =>
      simp only [joinSep]
      intro hc
      rcases List.mem_append.mp hc with hc | hc
      · rcases List.mem_append.mp hc with hc | hc
        · exact hall p (List.mem_cons_self p _) hc
        · simp at hc; exact hcd hc
      · exact ih (fun r hr => hall r (List.mem_cons_of_mem p hr)) hc

theorem count_joinSep (c : Char) :
    ∀ parts : List (List Char), (∀ p ∈ parts, c ∉ p) → parts ≠ [] →
      (joinSep [c] parts).count c = parts.length - 1 := by
  intro parts
  induction parts with
  | nil => intro _ h; exact absurd rfl h
  | cons p ps ih =>
    intro hall _
    cases ps with
    | nil =>
      simp only [joinSep]
      simp [List.count_eq_zero.mpr (hall p (List.mem_cons_self p []))]
    | cons q ps' =>
      simp only [joinSep]
      rw [List.count_append, List.count_append]
      rw [List.count_eq_zero.mpr (hall p (List.mem_cons_self p _))]
      rw [ih (fun r hr => hall r (List.mem_cons_of_mem p hr)) (by simp)]
      simp [List.count_cons]
      omega

/-- C7: the key-to-path mapping. A key within the length bound has its
unsafe characters replaced and is split on `/`; more than 4 segments
keep the first two with the rest collapsed into one underscore-joined
segment; an over-long key instead becomes a truncated readable slug
plus a short hash suffix; in every case the derived path holds at most
3 slashes (at most 4 segments), bounding directory nesting depth for
every key shape. -/
theorem key_to_path_mapping (shortHash : List Char → List Char)
    (maxLen : Nat) (key : List Char)
    (hhash : ∀ s, '/' ∉ shortHash s) :
    (key.length > maxLen →
      FileCacheStore.key_to_path shortHash maxLen key =
        (key.take 50).map (fun ch => if ch = '/' ∨ ch = '\\' then '_' else ch)
          ++ ['_'] ++ shortHash key) ∧
    (key.length ≤ maxLen →
      (splitChar '/'
          (key.map (fun ch =>
            if ch ∈ FileCacheStore.unsafeChars then '_' else ch))).length > 4 →
      FileCacheStore.key_to_path shortHash maxLen key =
        joinSep ['/']
          ((splitChar '/'
              (key.map (fun ch =>
                if ch ∈ FileCacheStore.unsafeChars then '_' else ch))).take 2 ++
            [joinSep ['_']
              ((splitChar '/'
                  (key.map (fun ch =>
                    if ch ∈ FileCacheStore.unsafeChars then '_'
                    else ch))).drop 2)])) ∧
    (key.length ≤ maxLen →
      (splitChar '/'
          (key.map (fun ch =>
            if ch ∈ FileCacheStore.unsafeChars then '_' else ch))).length ≤ 4 →
      FileCacheStore.key_to_path shortHash maxLen key =
        joinSep ['/']
          (splitChar '/'
            (key.map (fun ch =>
              if ch ∈ FileCacheStore.unsafeChars then '_' else ch)))) ∧
    (FileCacheStore.key_to_path shortHash maxLen key).count '/' ≤ 3 := by
  refine ⟨?_, ?_, ?_, ?_⟩
  · intro hlong
    simp only [FileCacheStore.key_to_path]
    rw [if_pos hlong]
  · intro hshort hgt
    simp only [FileCacheStore.key_to_path]
    rw [if_neg (by omega), if_pos hgt]
  · intro hshort hle
    simp only [FileCacheStore.key_to_path]
    rw [if_neg (by omega), if_neg (by omega)]
  · simp only [FileCacheStore.key_to_path]
    by_cases hlong : key.length > maxLen
    · rw [if_pos hlong]
      rw [List.count_append, List.count_append]
      have h1 : ('/' : Char) ∉
          (key.take 50).map
            (fun ch => if ch = '/' ∨ ch = '\\' then '_' else ch) := by
        intro hc
        rcases List.mem_map.mp hc with ⟨a, _, ha⟩
        by_cases hav : a = '/' ∨ a = '\\'
        · rw [if_pos hav] at ha
          exact absurd ha (by decide)
        · rw [if_neg hav] at ha
          exact hav (Or.inl ha)
      rw [List.count_eq_zero.mpr h1,
        List.count_eq_zero.mpr (hhash key)]
      simp
    · rw [if_neg hlong]
      set parts := splitChar '/'
        (key.map (fun ch =>
          if ch ∈ FileCacheStore.unsafeChars then '_' else ch)) with hparts
      have hfree : ∀ p ∈ parts, ('/' : Char) ∉ p := by
        intro p hp
        exact mem_splitChar_not_mem '/' _ p hp
      by_cases hgt : parts.length > 4
      · rw [if_pos hgt]
        have hfree2 : ∀ p ∈ parts.take 2 ++ [joinSep ['_'] (parts.drop 2)],
            ('/' : Char) ∉ p := by
          intro p hp
          rcases List.mem_append.mp hp with hp | hp
          · exact hfree p (List.take_subset 2 parts hp)
          · simp at hp
            rw [hp]
            exact not_mem_joinSep '/' '_' (by decide) _
              (fun r hr => hfree r (List.drop_subset 2 parts hr))
        rw [count_joinSep '/' _ hfree2 (by simp)]
        have : (parts.take 2).length ≤ 2 := by
          simp [List.length_take]
        simp only [List.length_append, List.length_cons,
          List.length_nil]
        omega
      · rw [if_neg hgt]
        rw [count_joinSep '/' parts hfree (splitChar_ne_nil '/' _)]
        omega

theorem storeGet_cons (p : String × CacheEntry)
    (s : FileCacheStore.StoreList) (k : String) :
    FileCacheStore.storeGet (p :: s) k =
      if p.1 = k then some p.2 else FileCacheStore.storeGet s k := by
  by_cases h : p.1 = k <;>
    simp [FileCacheStore.storeGet, List.find?_cons, h]

theorem filterMap_congr_mem {α β : Type} (f g : α → Option β) :
    ∀ l : List α, (∀ a ∈ l, f a = g a) →
      l.filterMap f = l.filterMap g := by
  intro l
  induction l with
  | nil => intro _; rfl
  | cons a rest ih =>
    intro h
    rw [List.filterMap_cons, List.filterMap_cons,
      h a (List.mem_cons_self a rest),
      ih (fun b hb => h b (List.mem_cons_of_mem a hb))]

theorem entriesAll_eq_values :
    ∀ s : FileCacheStore.StoreList, (FileCacheStore.keysOf s).Nodup →
      FileCacheStore.entriesAll s = s.map (fun p => p.2) := by
  intro s
  induction s with
  | nil => intro _; rfl
  | cons p rest ih =>
    intro hnd
    simp only [FileCacheStore.keysOf, List.map_cons] at hnd
    rw [List.nodup_cons] at hnd
    simp only [FileCacheStore.entriesAll, FileCacheStore.keysOf,
      List.map_cons, List.filterMap_cons]
    rw [storeGet_cons, if_pos rfl]
    have hcongr :
        (rest.map (fun p => p.1)).filterMap
            (FileCacheStore.storeGet (p :: rest)) =
          (rest.map (fun p => p.1)).filterMap
            (FileCacheStore.storeGet rest) := by
      apply filterMap_congr_mem
      intro k hkmem
      have hne : ¬ p.1 = k := by
        intro hc
        exact hnd.1 (by rw [hc]; exact hkmem)
      rw [storeGet_cons, if_neg hne]
    rw [hcongr]
    have := ih hnd.2
    simp only [FileCacheStore.entriesAll, FileCacheStore.keysOf] at this
    rw [this]

theorem deleteKeys_spec :
    ∀ (K : List String) (s : FileCacheStore.StoreList), K.Nodup →
      (∀ k ∈ K, k ∈ FileCacheStore.keysOf s) →
      FileCacheStore.deleteKeys s K =
        (K.length, s.filter (fun p => decide (p.1 ∉ K))) := by
  intro K
  induction K with
  | nil =>
    intro s _ _
    simp [FileCacheStore.deleteKeys]
  | cons k K' ih =>
    intro s hnd hmem
    rw [List.nodup_cons] at hnd
    have hany : s.any (fun p => p.1 = k) = true := by
      have h1 := hmem k (List.mem_cons_self k K')
      simp only [FileCacheStore.keysOf, List.mem_map] at h1
      obtain ⟨p, hp, hpk⟩ := h1
      rw [List.any_eq_true]
      exact ⟨p, hp, by simp [hpk]⟩
    simp only [FileCacheStore.deleteKeys, FileCacheStore.storeDelete, hany,
      if_true]
    have hmem' : ∀ k' ∈ K',
        k' ∈ FileCacheStore.keysOf (s.filter (fun p => p.1 ≠ k)) := by
      intro k' hk'
      have h1 := hmem k' (List.mem_cons_of_mem k hk')
      have hne : k' ≠ k := fun hc => hnd.1 (hc ▸ hk')
      simp only [FileCacheStore.keysOf, List.mem_map] at h1 ⊢
      obtain ⟨p, hp, hpk⟩ := h1
      refine ⟨p, List.mem_filter.mpr ⟨hp, ?_⟩, hpk⟩
      simp [hpk, hne]
    rw [ih _ hnd.2 hmem']
    simp only [Prod.mk.injEq]
    constructor
    · simp
    · rw [List.filter_filter]
      apply List.filter_congr
      intro p _
      by_cases h1 : p.1 = k <;> by_cases h2 : p.1 ∈ K' <;>
        simp [h1, h2]

/-- C9: `clear_expired` deletes exactly the entries expired at scan
time and returns their count; every fresh entry — all fields, hit
count included — survives unchanged. Assumes a store in the shape
`put` produces: distinct keys, each entry recorded under its own
key. -/
theorem clear_expired_exact (now : Int) (s : FileCacheStore.StoreList)
    (hnd : (FileCacheStore.keysOf s).Nodup)
    (hk : ∀ p ∈ s, p.2.key = p.1) :
    FileCacheStore.clear_expired now s =
      ((s.filter (fun p => p.2.is_expired now)).length,
       s.filter (fun p => p.2.is_fresh now)) := by
  simp only [FileCacheStore.clear_expired]
  rw [entriesAll_eq_values s hnd]
  have hfm :
      ((s.map (fun p => p.2)).filter (fun e => e.is_expired now)).map
          (fun e => e.key) =
        (s.filter (fun p => p.2.is_expired now)).map (fun p => p.1) := by
    rw [List.filter_map, List.map_map]
    apply List.map_congr_left
    intro p hp
    exact hk p (List.mem_of_mem_filter hp)
  rw [hfm]
  set K := (s.filter (fun p => p.2.is_expired now)).map (fun p => p.1)
    with hK
  have hKnd : K.Nodup := by
    have hsub : K.Sublist (s.map (fun p => p.1)) :=
      (List.filter_sublist s).map (fun p => p.1)
    exact hsub.nodup hnd
  have hKmem : ∀ k ∈ K, k ∈ FileCacheStore.keysOf s := by
    intro k hkm
    obtain ⟨p, hp, hpk⟩ := List.mem_map.mp hkm
    exact List.mem_map.mpr ⟨p, List.mem_of_mem_filter hp, hpk⟩
  rw [deleteKeys_spec K s hKnd hKmem]
  simp only [Prod.mk.injEq]
  constructor
  · simp [hK]
  · apply List.filter_congr
    intro p hp
    by_cases hexp : p.2.is_expired now = true
    · have hin : p.1 ∈ K :=
        List.mem_map.mpr ⟨p, List.mem_filter.mpr ⟨hp, by simp [hexp]⟩, rfl⟩
      simp [hin, CacheEntry.is_fresh, hexp]
    · have hnin : p.1 ∉ K := by
        intro hin
        obtain ⟨q, hqf, hq1⟩ := List.mem_map.mp hin
        have hq := List.mem_filter.mp hqf
        have hnd' : (s.map (fun p => p.1)).Nodup := hnd
        have hqp : q = p :=
          List.inj_on_of_nodup_map hnd' hq.1 hp hq1
        rw [hqp] at hq
        exact hexp (by simpa using hq.2)
      have hexp' : p.2.is_expired now = false :=
        Bool.eq_false_iff.mpr hexp
      simp [hnin, CacheEntry.is_fresh, hexp']

theorem fetch_storage_error_stale_fallback_witness :
    CacheManager.fetch defaultCfg 100 "a.md" failingStorage none false
        none singleStore =
      .ok (CacheManager.entry_to_result 100 staleEntry true true,
        singleStore, 1) ∧
    CacheManager.fetch defaultCfg 100 "zzz.md" failingStorage none false
        none emptyStore = .error boomError :=
  ⟨(fetch_storage_error_stale_fallback defaultCfg 100 "a.md"
      failingStorage none false none singleStore).2.2.1 staleEntry
      boomError (by decide) rfl (by decide) rfl,
   (fetch_storage_error_stale_fallback defaultCfg 100 "zzz.md"
      failingStorage none false none emptyStore).2.1 boomError rfl rfl⟩

theorem fetch_fresh_hit_no_storage_call_witness :
    CacheManager.fetch defaultCfg 100 "b.md" failingStorage none false
        none freshStore =
      .ok (CacheManager.entry_to_result 100 freshEntry.record_hit true
          false,
        storePut freshStore freshEntry.record_hit, 0) ∧
    freshEntry.record_hit.hit_count = freshEntry.hit_count + 1 :=
  ⟨(fetch_fresh_hit_no_storage_call defaultCfg 100 "b.md" failingStorage
      none none freshStore freshEntry (by decide) (by decide)).1,
   (fetch_fresh_hit_no_storage_call defaultCfg 100 "b.md" failingStorage
      none none freshStore freshEntry (by decide) (by decide)).2.1⟩

theorem get_corruption_self_healing_witness :
    FileCacheStore.get constDigest 0 ⟨.missing, none⟩ =
      (none, ⟨.missing, none⟩) ∧
    FileCacheStore.get constDigest 0 ⟨.parsed badHashDoc, some [1]⟩ =
      (none, FileCacheStore.deleteFiles) :=
  ⟨(get_corruption_self_healing constDigest 0 ⟨.missing, none⟩ badHashDoc
      [1] "x").1 (Or.inl rfl),
   (get_corruption_self_healing constDigest 0
      ⟨.parsed badHashDoc, some [1]⟩ badHashDoc [1] "x").2 rfl rfl
     (by decide) (by decide)⟩

theorem key_to_path_mapping_witness :
    FileCacheStore.key_to_path constHash 200 ("a/b/c/d/e.md").data =
      ("a/b/c_d_e.md").data ∧
    (FileCacheStore.key_to_path constHash 200
      ("a/b/c/d/e.md").data).count '/' ≤ 3 := by
  have h := key_to_path_mapping constHash 200 ("a/b/c/d/e.md").data
    (by intro s; show ('/' : Char) ∉ ['0', '1', '2', '3']; decide)
  refine ⟨?_, h.2.2.2⟩
  rw [h.2.1 (by decide) (by decide)]
  decide

theorem plain_fetch_ttl_from_registry_witness :
    ∃ e, CacheManager.plainFetch defaultCfg 0
        "codex://org/proj/docs/guide/api.md" okStorage none none
        emptyStore 0 =
      .ok (helloResult, storePut emptyStore e, 1) ∧ e.ttl = 86400 := by
  obtain ⟨e, h1, h2, h3, h4⟩ := (plain_fetch_ttl_from_registry defaultCfg 0
    "codex://org/proj/docs/guide/api.md" okStorage false none
    emptyStore).1 helloResult 0 rfl
  refine ⟨e, h1, ?_⟩
  rw [h2]
  decide

theorem clear_expired_exact_witness :
    FileCacheStore.clear_expired 100 sampleStoreList =
      (1, [("b.md", freshEntry)]) := by
  rw [clear_expired_exact 100 sampleStoreList (by decide) (by decide)]
  decide

theorem default_ttl_noninterference_witness :
    CacheManager.fetch ⟨create_default_registry, 3600⟩ 0 "x.md" okStorage
        none false none emptyStore =
      CacheManager.fetch ⟨create_default_registry, 999⟩ 0 "x.md" okStorage
        none false none emptyStore ∧
    create_default_registry.get_ttl "src/main.rs" = 86400 := by
  have h := default_ttl_noninterference create_default_registry 3600 999 0
    "x.md" okStorage none false none emptyStore
  exact ⟨h.1, h.2.1 "src/main.rs" (by decide)⟩
